import Mathlib

/-!
Shallow embedding of the trust-score service in `src/backend/ai-trust-score.py`
(data model, time decay, sentiment adapter, review merge, aggregation engine,
per-review analysis view), together with theorems settling the specification
claims about it.

Python floats are modelled as real numbers; Python's `round(x, n)` is modelled
as rounding `x * 10^n` to the nearest integer (Python uses banker's rounding at
exact ties; no claim below depends on tie behaviour).  The wall clock read by
`time.time()` / `datetime.now()` is passed explicitly as an argument, and the
sentiment NLP pipeline is an explicit parameter, since both are external to the
pure computation.
-/

/-- One review record (`class Review(BaseModel)` in the source).
`rating` is an `int` validated to `[1,5]` at construction; the validation is
kept as a separate predicate since it lives in the pydantic layer. -/
structure Review where
  client_address : String
  client_verified : Bool
  rating : ℤ
  comment : String
  timestamp : ℤ
  deriving DecidableEq, Repr

/-- Pydantic validation on `Review.rating` (`Field(..., ge=1, le=5)`). -/
def Review.valid (r : Review) : Prop := 1 ≤ r.rating ∧ r.rating ≤ 5

instance (r : Review) : Decidable r.valid := by unfold Review.valid; infer_instance

/-- `TIME_DECAY_FACTOR = float(os.getenv("TIME_DECAY_FACTOR", "0.05"))` at its default. -/
noncomputable def TIME_DECAY_FACTOR : ℝ := 5 / 100

/-- `TIME_UNIT = 60 * 60 * 24 * 30` -- 30 days in seconds. -/
def TIME_UNIT : ℤ := 60 * 60 * 24 * 30

/-- `SENTIMENT_WEIGHT` at its default `0.3`. -/
noncomputable def SENTIMENT_WEIGHT : ℝ := 3 / 10

/-- `VERIFIED_CLIENT_WEIGHT` at its default `1.5`. -/
noncomputable def VERIFIED_CLIENT_WEIGHT : ℝ := 3 / 2

/-- `UNVERIFIED_CLIENT_WEIGHT` at its default `0.8`. -/
noncomputable def UNVERIFIED_CLIENT_WEIGHT : ℝ := 8 / 10

/-- Python's `round(x, n)`: round to `n` decimal places. -/
noncomputable def pyRound (n : ℕ) (x : ℝ) : ℝ := (round (x * 10 ^ n) : ℤ) / 10 ^ n

/-- `calculate_time_decay(timestamp)`.  The source reads `current_time` from
`time.time()`; it is passed here explicitly. -/
noncomputable def calculate_time_decay (current_time timestamp : ℤ) : ℝ :=
  Real.exp (-TIME_DECAY_FACTOR * (((current_time - timestamp : ℤ) : ℝ) / (TIME_UNIT : ℝ)))

/-- `client_weight = VERIFIED_CLIENT_WEIGHT if review.client_verified else UNVERIFIED_CLIENT_WEIGHT`. -/
noncomputable def client_weight (verified : Bool) : ℝ :=
  if verified then VERIFIED_CLIENT_WEIGHT else UNVERIFIED_CLIENT_WEIGHT

/-- `total_weight = time_weight * client_weight` for one review. -/
noncomputable def total_weight (now : ℤ) (r : Review) : ℝ :=
  calculate_time_decay now r.timestamp * client_weight r.client_verified

/-- The loop accumulator `weighted_sum += review.rating * total_weight`. -/
noncomputable def weighted_sum (reviews : List Review) (now : ℤ) : ℝ :=
  (reviews.map (fun r => (r.rating : ℝ) * total_weight now r)).sum

/-- The loop accumulator `weight_sum += total_weight`. -/
noncomputable def weight_sum (reviews : List Review) (now : ℤ) : ℝ :=
  (reviews.map (total_weight now)).sum

/-- The loop accumulator `sentiment_sum`, fed only by reviews whose comment is
non-empty (`if review.comment:`). -/
noncomputable def sentiment_sum (reviews : List Review) (now : ℤ) (sentiment : String → ℝ) : ℝ :=
  (reviews.map (fun r =>
    if r.comment = "" then 0 else sentiment r.comment * total_weight now r)).sum

/-- `weighted_rating = weighted_sum / weight_sum if weight_sum > 0 else 3`. -/
noncomputable def weighted_rating (reviews : List Review) (now : ℤ) : ℝ :=
  if 0 < weight_sum reviews now then weighted_sum reviews now / weight_sum reviews now else 3

/-- `average_sentiment = sentiment_sum / weight_sum if weight_sum > 0 else 0`. -/
noncomputable def average_sentiment (reviews : List Review) (now : ℤ) (sentiment : String → ℝ) : ℝ :=
  if 0 < weight_sum reviews now then sentiment_sum reviews now sentiment / weight_sum reviews now
  else 0

/-- `sentiment_adjustment = average_sentiment * SENTIMENT_WEIGHT`. -/
noncomputable def sentiment_adjustment (reviews : List Review) (now : ℤ)
    (sentiment : String → ℝ) : ℝ :=
  average_sentiment reviews now sentiment * SENTIMENT_WEIGHT

/-- `adjusted_rating = min(5, max(1, weighted_rating + sentiment_adjustment))`. -/
noncomputable def adjusted_rating (reviews : List Review) (now : ℤ)
    (sentiment : String → ℝ) : ℝ :=
  min 5 (max 1 (weighted_rating reviews now + sentiment_adjustment reviews now sentiment))

/-- `trust_score = (adjusted_rating - 1) * 25`. -/
noncomputable def trust_score (reviews : List Review) (now : ℤ) (sentiment : String → ℝ) : ℝ :=
  (adjusted_rating reviews now sentiment - 1) * 25

/-- `confidence = min(1.0, (len(reviews) / 10))`. -/
noncomputable def confidence (review_count : ℕ) : ℝ := min 1 ((review_count : ℝ) / 10)

/-- `avg_decay = sum(calculate_time_decay(r.timestamp) for r in reviews) / len(reviews)`. -/
noncomputable def avg_decay (reviews : List Review) (now : ℤ) : ℝ :=
  (reviews.map (fun r => calculate_time_decay now r.timestamp)).sum / (reviews.length : ℝ)

/-- The dict returned by `calculate_trust_score` (the engine's output record;
the `address` key is attached by the HTTP layer, not by the engine). -/
structure TrustScoreResult where
  score : ℝ
  confidence : ℝ
  review_count : ℕ
  average_rating : ℝ
  sentiment_adjustment : ℝ
  recency_factor : ℝ
  calculation_time : String

/-- `calculate_trust_score(reviews)`.  `now` is the value of `time.time()`,
`sentiment` is the `analyze_sentiment` adapter, and `calc_time` is the string
`datetime.now().isoformat()` produced at return time. -/
noncomputable def calculate_trust_score (reviews : List Review) (now : ℤ)
    (sentiment : String → ℝ) (calc_time : String) : TrustScoreResult :=
  if reviews = [] then
    { score := 50
      confidence := 0
      review_count := 0
      average_rating := 0
      sentiment_adjustment := 0
      recency_factor := 1
      calculation_time := calc_time }
  else
    { score := pyRound 1 (trust_score reviews now sentiment)
      confidence := pyRound 2 (confidence reviews.length)
      review_count := reviews.length
      average_rating := pyRound 2 (weighted_rating reviews now)
      sentiment_adjustment := pyRound 2 (sentiment_adjustment reviews now sentiment)
      recency_factor := pyRound 2 (avg_decay reviews now)
      calculation_time := calc_time }

/-- Result record of the HF sentiment pipeline: `result['label']`
(`true` = `"POSITIVE"`) and `result['score']`. -/
structure SentimentOutput where
  positive : Bool
  score : ℝ

/-- `analyze_sentiment(text)`.  `sentiment_analyzer` is the process-global
pipeline handle: `none` models a failed model load; the function itself may
fail, modelled by `Except`.  Mirrors: early-return `0.0` when the analyzer is
missing or the text empty, truncation to 512 characters, label-signed score,
and the `except` clause returning `0.0`. -/
noncomputable def analyze_sentiment
    (sentiment_analyzer : Option (String → Except String SentimentOutput))
    (text : String) : ℝ :=
  match sentiment_analyzer with
  | none => 0
  | some model =>
    if text = "" then 0
    else
      match model (text.take 512) with
      | Except.error _ => 0
      | Except.ok result => if result.positive then result.score else -result.score

/-- State threaded through the merge loops of `get_trust_score`:
`(combined_reviews, seen_clients)`.  The Python `set` is modelled as a list
queried only by membership. -/
def primaryStep (acc : List Review × List String) (review : Review) :
    List Review × List String :=
  (acc.1 ++ [review], review.client_address :: acc.2)

/-- One iteration of the second merge loop: an API review is appended only if
its client address has not been seen. -/
def secondaryStep (acc : List Review × List String) (review : Review) :
    List Review × List String :=
  if review.client_address ∈ acc.2 then acc
  else (acc.1 ++ [review], review.client_address :: acc.2)

/-- The combine-and-deduplicate block of `get_trust_score` (lines 331-344):
all blockchain reviews are appended and marked seen, then API reviews are
appended when unseen. -/
def mergeReviews (blockchain_reviews api_reviews : List Review) : List Review :=
  (api_reviews.foldl secondaryStep (blockchain_reviews.foldl primaryStep ([], []))).1

/-- The surviving secondary reviews, described the way the specification's
merge policy is worded: scanning `secondary` in order, keep a review only if
its reviewer has not been seen (initially the primary's reviewers). -/
def keptSecondary (seen : List String) : List Review → List Review
  | [] => []
  | r :: rest =>
    if r.client_address ∈ seen then keptSecondary seen rest
    else r :: keptSecondary (r.client_address :: seen) rest

/-- One element of the `analyzed_reviews` list built by `analyze_reviews`
(the derived `datetime` string, a pure re-formatting of `timestamp`, is left
to the presentation layer). -/
structure AnalyzedReview where
  client_address : String
  client_verified : Bool
  rating : ℤ
  comment : String
  timestamp : ℤ
  sentiment_score : ℝ
  time_decay_factor : ℝ
  effective_weight : ℝ

/-- The `analysis` summary dict of `analyze_reviews`. -/
structure AnalysisStats where
  review_count : ℕ
  average_rating : ℝ
  average_sentiment : ℝ
  verified_client_percentage : ℝ

/-- The response of the `analyze_reviews` endpoint: the per-review list plus
the summary; the empty-input response carries an empty dict, modelled as
`none`. -/
structure AnalyzeResult where
  reviews : List AnalyzedReview
  analysis : Option AnalysisStats

/-- The analysis body of `analyze_reviews` (lines 381-424): raw concatenation
of both sources, per-review sentiment/decay/effective-weight, and unweighted
summary statistics. -/
noncomputable def analyze_reviews (blockchain_reviews api_reviews : List Review) (now : ℤ)
    (sentiment : String → ℝ) : AnalyzeResult :=
  let combined_reviews := blockchain_reviews ++ api_reviews
  if combined_reviews = [] then { reviews := [], analysis := none }
  else
    { reviews := combined_reviews.map (fun r =>
        { client_address := r.client_address
          client_verified := r.client_verified
          rating := r.rating
          comment := r.comment
          timestamp := r.timestamp
          sentiment_score := pyRound 2 (sentiment r.comment)
          time_decay_factor := pyRound 2 (calculate_time_decay now r.timestamp)
          effective_weight := pyRound 2
            (calculate_time_decay now r.timestamp * client_weight r.client_verified) })
      analysis := some
        { review_count := combined_reviews.length
          average_rating := pyRound 2
            ((combined_reviews.map (fun r => (r.rating : ℝ))).sum / (combined_reviews.length : ℝ))
          average_sentiment := pyRound 2
            ((combined_reviews.map (fun r => sentiment r.comment)).sum /
              (combined_reviews.length : ℝ))
          verified_client_percentage := pyRound 1
            (((combined_reviews.filter (fun r => r.client_verified)).length : ℝ) /
              (combined_reviews.length : ℝ) * 100) } }

/-- Modelled from the spec (4.6): the plain unweighted mean rating over a
review sequence. -/
noncomputable def spec_unweighted_average_rating (reviews : List Review) : ℝ :=
  (reviews.map (fun r => (r.rating : ℝ))).sum / (reviews.length : ℝ)

/-- Modelled from the spec (4.6): the plain unweighted mean sentiment over a
review sequence. -/
noncomputable def spec_unweighted_average_sentiment (reviews : List Review)
    (sentiment : String → ℝ) : ℝ :=
  (reviews.map (fun r => sentiment r.comment)).sum / (reviews.length : ℝ)

/-- Modelled from the spec (4.6): the percentage of verified reviewers. -/
noncomputable def spec_verified_percentage (reviews : List Review) : ℝ :=
  ((reviews.filter (fun r => r.client_verified)).length : ℝ) / (reviews.length : ℝ) * 100

/-! ### Basic numeric lemmas -/

lemma round_mono_le {x y : ℝ} (h : x ≤ y) : round x ≤ round y := by
  rw [round_eq, round_eq]
  exact Int.floor_mono (by linarith)

lemma le_pyRound_of_le {n : ℕ} {x : ℝ} (a : ℤ) (h : (a : ℝ) ≤ x * 10 ^ n) :
    (a : ℝ) / 10 ^ n ≤ pyRound n x := by
  unfold pyRound
  have h10 : (0 : ℝ) < 10 ^ n := by positivity
  rw [div_le_div_iff_of_pos_right h10]
  have : round ((a : ℝ)) ≤ round (x * 10 ^ n) := round_mono_le h
  rw [round_intCast] at this
  exact_mod_cast this

lemma pyRound_le_of_le {n : ℕ} {x : ℝ} (b : ℤ) (h : x * 10 ^ n ≤ (b : ℝ)) :
    pyRound n x ≤ (b : ℝ) / 10 ^ n := by
  unfold pyRound
  have h10 : (0 : ℝ) < 10 ^ n := by positivity
  rw [div_le_div_iff_of_pos_right h10]
  have : round (x * 10 ^ n) ≤ round ((b : ℝ)) := round_mono_le h
  rw [round_intCast] at this
  exact_mod_cast this

lemma client_weight_pos (verified : Bool) : 0 < client_weight verified := by
  cases verified <;>
    simp [client_weight, VERIFIED_CLIENT_WEIGHT, UNVERIFIED_CLIENT_WEIGHT]

lemma calculate_time_decay_pos (now t : ℤ) : 0 < calculate_time_decay now t :=
  Real.exp_pos _

lemma total_weight_pos (now : ℤ) (r : Review) : 0 < total_weight now r :=
  mul_pos (calculate_time_decay_pos now r.timestamp) (client_weight_pos r.client_verified)

lemma weight_sum_nonneg (reviews : List Review) (now : ℤ) : 0 ≤ weight_sum reviews now := by
  apply List.sum_nonneg
  intro x hx
  obtain ⟨r, _, rfl⟩ := List.mem_map.mp hx
  exact (total_weight_pos now r).le

lemma weight_sum_pos (reviews : List Review) (now : ℤ) (h : reviews ≠ []) :
    0 < weight_sum reviews now := by
  apply List.sum_pos
  · intro x hx
    obtain ⟨r, _, rfl⟩ := List.mem_map.mp hx
    exact total_weight_pos now r
  · simpa using h

/-- Decay weight of a non-future review is at most 1. -/
lemma calculate_time_decay_le_one {now t : ℤ} (h : t ≤ now) :
    calculate_time_decay now t ≤ 1 := by
  unfold calculate_time_decay TIME_DECAY_FACTOR TIME_UNIT
  rw [Real.exp_le_one_iff]
  have h0 : (0 : ℝ) ≤ ((now - t : ℤ) : ℝ) := by exact_mod_cast Int.sub_nonneg.mpr h
  have : (((60 * 60 * 24 * 30 : ℤ)) : ℝ) = 2592000 := by norm_num
  rw [this]
  nlinarith [h0]

/-- The clamp `min(5, max(1, _))` always lands in `[1, 5]`. -/
lemma adjusted_rating_bounds (reviews : List Review) (now : ℤ) (sentiment : String → ℝ) :
    1 ≤ adjusted_rating reviews now sentiment ∧ adjusted_rating reviews now sentiment ≤ 5 := by
  unfold adjusted_rating
  constructor
  · exact le_min (by norm_num) (le_max_left _ _)
  · exact min_le_left _ _

/-! ### Lemmas about the merge loops -/

lemma foldl_primaryStep (p : List Review) :
    ∀ (acc : List Review) (seen : List String),
      p.foldl primaryStep (acc, seen) =
        (acc ++ p, (p.map Review.client_address).reverse ++ seen) := by
  induction p with
  | nil => intro acc seen; simp
  | cons r rest ih =>
    intro acc seen
    simp only [List.foldl_cons, primaryStep, ih, List.map_cons, List.reverse_cons]
    simp

lemma foldl_secondaryStep (s : List Review) :
    ∀ (acc : List Review) (seen : List String),
      (s.foldl secondaryStep (acc, seen)).1 = acc ++ keptSecondary seen s := by
  induction s with
  | nil => intro acc seen; simp [keptSecondary]
  | cons r rest ih =>
    intro acc seen
    by_cases h : r.client_address ∈ seen
    · simp only [List.foldl_cons, secondaryStep, if_pos h, keptSecondary, ih]
    · simp only [List.foldl_cons, secondaryStep, if_neg h, keptSecondary, ih]
      simp

lemma keptSecondary_congr (s : List Review) :
    ∀ seen1 seen2 : List String, (∀ a, a ∈ seen1 ↔ a ∈ seen2) →
      keptSecondary seen1 s = keptSecondary seen2 s := by
  induction s with
  | nil => intro _ _ _; rfl
  | cons r rest ih =>
    intro seen1 seen2 hmem
    by_cases h : r.client_address ∈ seen1
    · rw [keptSecondary, keptSecondary, if_pos h, if_pos ((hmem _).mp h), ih _ _ hmem]
    · rw [keptSecondary, keptSecondary, if_neg h, if_neg (fun hc => h ((hmem _).mpr hc))]
      congr 1
      apply ih
      intro a
      simp [hmem a]

/-- The merge block equals: all primary reviews, then the secondary reviews
kept by the first-unseen-reviewer scan. -/
lemma mergeReviews_eq (p s : List Review) :
    mergeReviews p s = p ++ keptSecondary (p.map Review.client_address) s := by
  unfold mergeReviews
  rw [foldl_primaryStep, foldl_secondaryStep, List.nil_append]
  congr 1
  apply keptSecondary_congr
  intro a
  simp

lemma keptSecondary_sublist (seen : List String) (s : List Review) :
    List.Sublist (keptSecondary seen s) s := by
  induction s generalizing seen with
  | nil => simp [keptSecondary]
  | cons r rest ih =>
    rw [keptSecondary]
    by_cases h : r.client_address ∈ seen
    · rw [if_pos h]
      exact (ih seen).trans (List.sublist_cons_self r rest)
    · rw [if_neg h]
      exact List.Sublist.cons₂ r (ih _)

lemma keptSecondary_not_seen (seen : List String) (s : List Review) :
    ∀ r ∈ keptSecondary seen s, r.client_address ∉ seen := by
  induction s generalizing seen with
  | nil => simp [keptSecondary]
  | cons q rest ih =>
    intro r hr
    rw [keptSecondary] at hr
    by_cases h : q.client_address ∈ seen
    · rw [if_pos h] at hr
      exact ih seen r hr
    · rw [if_neg h] at hr
      rcases List.mem_cons.mp hr with rfl | hr'
      · exact h
      · have := ih (q.client_address :: seen) r hr'
        exact fun hc => this (List.mem_cons_of_mem _ hc)

lemma keptSecondary_nodup (seen : List String) (s : List Review) :
    ((keptSecondary seen s).map Review.client_address).Nodup := by
  induction s generalizing seen with
  | nil => simp [keptSecondary]
  | cons q rest ih =>
    rw [keptSecondary]
    by_cases h : q.client_address ∈ seen
    · rw [if_pos h]; exact ih seen
    · rw [if_neg h]
      rw [List.map_cons, List.nodup_cons]
      refine ⟨?_, ih _⟩
      intro hc
      obtain ⟨r, hr, hra⟩ := List.mem_map.mp hc
      have := keptSecondary_not_seen _ _ r hr
      exact this (hra ▸ List.mem_cons_self _ _)

/-! ### Claim theorems -/

/-- Claim C3: aggregation over the empty review sequence returns exactly the
neutral result `score=50`, `confidence=0`, `review_count=0`,
`average_rating=0`, `sentiment_adjustment=0`, `recency_factor=1`, and (being a
total function) raises no error. -/
theorem C3_empty_input_neutral (now : ℤ) (sentiment : String → ℝ) (calc_time : String) :
    calculate_trust_score [] now sentiment calc_time =
      { score := 50
        confidence := 0
        review_count := 0
        average_rating := 0
        sentiment_adjustment := 0
        recency_factor := 1
        calculation_time := calc_time } := by
  simp [calculate_trust_score]

/-- Claim C10: in the scoring path's merge, deduplication is one-sided: every
primary (blockchain) review is included unconditionally -- even duplicates of
one `reviewer_id` within the primary source -- while of the secondary (API)
source only the first review per not-yet-seen `reviewer_id` is kept, as
described by the `keptSecondary` scan. -/
theorem C10_one_sided_dedup (blockchain_reviews api_reviews : List Review) :
    mergeReviews blockchain_reviews api_reviews =
      blockchain_reviews ++
        keptSecondary (blockchain_reviews.map Review.client_address) api_reviews :=
  mergeReviews_eq blockchain_reviews api_reviews

/-- Claim C2 (counterexample): with a primary source that itself repeats a
reviewer, the merged sequence keeps both of the primary's reviews, so "at most
one review per distinct reviewer_id survives" is false as stated. -/
theorem C2_counterexample :
    mergeReviews
        [⟨"x", false, 5, "", 0⟩, ⟨"x", true, 1, "bad", 7⟩] [] =
      [⟨"x", false, 5, "", 0⟩, ⟨"x", true, 1, "bad", 7⟩] ∧
    ¬ ((mergeReviews
        [⟨"x", false, 5, "", 0⟩, ⟨"x", true, 1, "bad", 7⟩] []).map
          Review.client_address).Nodup := by
  constructor
  · rfl
  · decide

/-- Claim C2 (amended): provided the primary source itself contains at most
one review per `reviewer_id`, the merged sequence has at most one review per
distinct `reviewer_id`; the primary's reviews are kept unmodified, in order, as
the output's prefix; and the rest of the output is a subsequence of the
secondary source (so surviving secondary reviews keep their order) none of
whose reviewers occurs in the primary source. -/
theorem C2_merge_dedup (p s : List Review)
    (hp : (p.map Review.client_address).Nodup) :
    ((mergeReviews p s).map Review.client_address).Nodup ∧
    (mergeReviews p s).take p.length = p ∧
    List.Sublist ((mergeReviews p s).drop p.length) s ∧
    ∀ r ∈ (mergeReviews p s).drop p.length,
      r.client_address ∉ p.map Review.client_address := by
  rw [mergeReviews_eq]
  refine ⟨?_, ?_, ?_, ?_⟩
  · rw [List.map_append, List.nodup_append]
    refine ⟨hp, keptSecondary_nodup _ _, ?_⟩
    intro a ha hb
    obtain ⟨r, hr, rfl⟩ := List.mem_map.mp hb
    exact keptSecondary_not_seen _ _ r hr ha
  · rw [List.take_left]
  · rw [List.drop_left]
    exact keptSecondary_sublist _ _
  · rw [List.drop_left]
    exact keptSecondary_not_seen _ _

/-- Claim C2 (witness for the amended statement) at a concrete pair of
sources: primary `[A("x")]`, secondary `[B("x"), C("y")]` merge to `[A, C]`. -/
theorem C2_merge_dedup_witness :
    (([(⟨"x", true, 5, "good", 10⟩ : Review)].map Review.client_address).Nodup ∧
      ((mergeReviews [⟨"x", true, 5, "good", 10⟩]
          [⟨"x", false, 1, "bad", 20⟩, ⟨"y", false, 3, "", 30⟩]).map
            Review.client_address).Nodup) ∧
    mergeReviews [⟨"x", true, 5, "good", 10⟩]
        [⟨"x", false, 1, "bad", 20⟩, ⟨"y", false, 3, "", 30⟩] =
      [⟨"x", true, 5, "good", 10⟩, ⟨"y", false, 3, "", 30⟩] := by
  refine ⟨⟨by decide, ?_⟩, by rfl⟩
  exact (C2_merge_dedup [⟨"x", true, 5, "good", 10⟩]
    [⟨"x", false, 1, "bad", 20⟩, ⟨"y", false, 3, "", 30⟩] (by decide)).1

/-- Claim C8: the aggregation is a pure function of its review list, clock
reading, sentiment adapter and result-timestamp string: identical inputs give
identical (byte-identical, field-for-field) output records, with no hidden
state between calls. -/
theorem C8_deterministic (r1 r2 : List Review) (n1 n2 : ℤ) (s1 s2 : String → ℝ)
    (c1 c2 : String) (hr : r1 = r2) (hn : n1 = n2) (hs : s1 = s2) (hc : c1 = c2) :
    calculate_trust_score r1 n1 s1 c1 = calculate_trust_score r2 n2 s2 c2 := by
  rw [hr, hn, hs, hc]

/-- Claim C8 (witness): two textually separate invocations on the same
concrete input coincide. -/
theorem C8_deterministic_witness :
    calculate_trust_score [⟨"x", true, 5, "good", 10⟩] 10 (fun _ => 1) "t" =
      calculate_trust_score [⟨"x", true, 5, "good", 10⟩] 10 (fun _ => 1) "t" :=
  C8_deterministic _ _ _ _ _ _ _ _ rfl rfl rfl rfl

/-- Claim C4: the decay function is monotonically non-increasing in review age
(for a fixed clock reading, an older timestamp never yields a strictly larger
decay weight), equals exactly `1.0` at `timestamp = now`, and is strictly
greater than `1.0` for future timestamps -- no clamping. -/
theorem C4_decay_properties :
    (∀ now t1 t2 : ℤ, t1 ≤ t2 →
      calculate_time_decay now t1 ≤ calculate_time_decay now t2) ∧
    (∀ t : ℤ, calculate_time_decay t t = 1) ∧
    (∀ now t : ℤ, now < t → 1 < calculate_time_decay now t) := by
  refine ⟨?_, ?_, ?_⟩
  · intro now t1 t2 h
    unfold calculate_time_decay TIME_DECAY_FACTOR TIME_UNIT
    rw [Real.exp_le_exp]
    have hA : ((now - t2 : ℤ) : ℝ) ≤ ((now - t1 : ℤ) : ℝ) := by
      exact_mod_cast sub_le_sub_left h now
    have hU : (((60 * 60 * 24 * 30 : ℤ) : ℤ) : ℝ) = 2592000 := by norm_num
    rw [hU]
    nlinarith [hA]
  · intro t
    unfold calculate_time_decay
    simp [Real.exp_zero]
  · intro now t h
    unfold calculate_time_decay TIME_DECAY_FACTOR TIME_UNIT
    rw [Real.one_lt_exp_iff]
    have hA : ((now - t : ℤ) : ℝ) < 0 := by
      have : (now - t : ℤ) < 0 := sub_neg.mpr h
      exact_mod_cast this
    have hU : (((60 * 60 * 24 * 30 : ℤ) : ℤ) : ℝ) = 2592000 := by norm_num
    rw [hU]
    nlinarith [hA]

/-- Claim C4 (witness): monotonicity, the `timestamp = now` case and a strict
future-timestamp case at concrete inputs. -/
theorem C4_decay_properties_witness :
    ((-5 : ℤ) ≤ 3 ∧ calculate_time_decay 10 (-5) ≤ calculate_time_decay 10 3) ∧
    calculate_time_decay 42 42 = 1 ∧
    ((0 : ℤ) < 7 ∧ 1 < calculate_time_decay 0 7) :=
  ⟨⟨by decide, C4_decay_properties.1 10 (-5) 3 (by decide)⟩,
   C4_decay_properties.2.1 42,
   ⟨by decide, C4_decay_properties.2.2 0 7 (by decide)⟩⟩

/-- Claim C1: for every review sequence (in particular every well-formed one)
the resulting score lies in `[0, 100]` and the resulting confidence in
`[0, 1]`. -/
theorem C1_score_and_confidence_bounds (reviews : List Review) (now : ℤ)
    (sentiment : String → ℝ) (calc_time : String) :
    (0 ≤ (calculate_trust_score reviews now sentiment calc_time).score ∧
      (calculate_trust_score reviews now sentiment calc_time).score ≤ 100) ∧
    (0 ≤ (calculate_trust_score reviews now sentiment calc_time).confidence ∧
      (calculate_trust_score reviews now sentiment calc_time).confidence ≤ 1) := by
  by_cases h : reviews = []
  · subst h
    simp only [calculate_trust_score, if_pos rfl]
    norm_num
  · simp only [calculate_trust_score, if_neg h]
    have hadj := adjusted_rating_bounds reviews now sentiment
    have hts0 : 0 ≤ trust_score reviews now sentiment := by
      unfold trust_score; nlinarith [hadj.1]
    have hts1 : trust_score reviews now sentiment ≤ 100 := by
      unfold trust_score; nlinarith [hadj.2]
    have hc0 : 0 ≤ confidence reviews.length := by
      unfold confidence
      exact le_min (by norm_num) (by positivity)
    have hc1 : confidence reviews.length ≤ 1 := min_le_left _ _
    refine ⟨⟨?_, ?_⟩, ?_, ?_⟩
    · have := le_pyRound_of_le (n := 1) (x := trust_score reviews now sentiment) 0
        (by push_cast; nlinarith)
      simpa using this
    · have := pyRound_le_of_le (n := 1) (x := trust_score reviews now sentiment) 1000
        (by push_cast; nlinarith)
      norm_num at this
      exact this
    · have := le_pyRound_of_le (n := 2) (x := confidence reviews.length) 0 (by push_cast; nlinarith)
      simpa using this
    · have := pyRound_le_of_le (n := 2) (x := confidence reviews.length) 100 (by push_cast; nlinarith)
      norm_num at this
      exact this

lemma avg_decay_pos (reviews : List Review) (now : ℤ) (hne : reviews ≠ []) :
    0 < avg_decay reviews now := by
  unfold avg_decay
  apply div_pos
  · apply List.sum_pos
    · intro x hx
      obtain ⟨r, _, rfl⟩ := List.mem_map.mp hx
      exact calculate_time_decay_pos now r.timestamp
    · simpa using hne
  · have : 0 < reviews.length := List.length_pos.mpr hne
    exact_mod_cast this

lemma avg_decay_le_one (reviews : List Review) (now : ℤ) (hne : reviews ≠ [])
    (h : ∀ r ∈ reviews, r.timestamp ≤ now) : avg_decay reviews now ≤ 1 := by
  unfold avg_decay
  have hlen : (0 : ℝ) < (reviews.length : ℝ) := by
    exact_mod_cast List.length_pos.mpr hne
  rw [div_le_one hlen]
  have hsum := List.sum_le_card_nsmul
    (reviews.map (fun r => calculate_time_decay now r.timestamp)) 1 ?_
  · simpa [nsmul_eq_mul] using hsum
  · intro x hx
    obtain ⟨r, hr, rfl⟩ := List.mem_map.mp hx
    exact calculate_time_decay_le_one (h r hr)

/-- Claim C5 (counterexample): the claimed range `(0,1]` with `1.0` only for
empty input fails three ways on the code: a single review stamped exactly
`now` yields `recency_factor = 1` with `review_count = 1`; a single
future-stamped review yields `recency_factor > 1`; and a single very old
review rounds down to `recency_factor = 0`. -/
theorem C5_counterexample :
    (calculate_trust_score [⟨"a", false, 5, "", 0⟩] 0 (fun _ => 0) "t").recency_factor = 1 ∧
    (calculate_trust_score [⟨"a", false, 5, "", 0⟩] 0 (fun _ => 0) "t").review_count = 1 ∧
    1 < (calculate_trust_score [⟨"a", false, 5, "", 51840000⟩] 0
          (fun _ => 0) "t").recency_factor ∧
    (calculate_trust_score [⟨"a", false, 5, "", -518400000⟩] 0
          (fun _ => 0) "t").recency_factor = 0 := by
  have hexp1 : (2 : ℝ) < Real.exp 1 := by
    have := Real.add_one_lt_exp (by norm_num : (1 : ℝ) ≠ 0)
    linarith
  refine ⟨?_, ?_, ?_, ?_⟩
  · have harg : avg_decay [⟨"a", false, 5, "", 0⟩] 0 = 1 := by
      unfold avg_decay calculate_time_decay TIME_DECAY_FACTOR TIME_UNIT
      norm_num
    simp only [calculate_trust_score, if_neg (by simp : ¬([⟨"a", false, 5, "", 0⟩] :
      List Review) = [])]
    rw [harg]
    unfold pyRound
    rw [show (1 : ℝ) * 10 ^ 2 = ((100 : ℤ) : ℝ) by norm_num, round_intCast]
    norm_num
  · simp [calculate_trust_score]
  · have harg : avg_decay [⟨"a", false, 5, "", 51840000⟩] 0 = Real.exp 1 := by
      unfold avg_decay calculate_time_decay TIME_DECAY_FACTOR TIME_UNIT
      norm_num
    simp only [calculate_trust_score, if_neg (by simp : ¬([⟨"a", false, 5, "", 51840000⟩] :
      List Review) = [])]
    rw [harg]
    have h200 : ((200 : ℤ) : ℝ) ≤ Real.exp 1 * 10 ^ 2 := by push_cast; nlinarith
    have := le_pyRound_of_le 200 h200
    norm_num at this
    linarith
  · have harg : avg_decay [⟨"a", false, 5, "", -518400000⟩] 0 = Real.exp (-10) := by
      unfold avg_decay calculate_time_decay TIME_DECAY_FACTOR TIME_UNIT
      norm_num
    simp only [calculate_trust_score,
      if_neg (by simp : ¬([⟨"a", false, 5, "", -518400000⟩] : List Review) = [])]
    rw [harg]
    have hpow : (1024 : ℝ) ≤ Real.exp 10 := by
      have h2 : (2 : ℝ) ^ (10 : ℕ) ≤ Real.exp 1 ^ (10 : ℕ) :=
        pow_le_pow_left₀ (by norm_num) hexp1.le 10
      have hm : Real.exp ((10 : ℕ) * (1 : ℝ)) = Real.exp 1 ^ (10 : ℕ) :=
        Real.exp_nat_mul 1 10
      have : Real.exp 10 = Real.exp 1 ^ (10 : ℕ) := by
        rw [← hm]; norm_num
      rw [this]
      calc (1024 : ℝ) = 2 ^ (10 : ℕ) := by norm_num
        _ ≤ Real.exp 1 ^ (10 : ℕ) := h2
    have hsmall : Real.exp (-10) ≤ (1024 : ℝ)⁻¹ := by
      rw [Real.exp_neg]
      exact inv_anti₀ (by norm_num) hpow
    have hround : round (Real.exp (-10) * 10 ^ 2) = 0 := by
      rw [round_eq_zero_iff]
      constructor
      · have := Real.exp_pos (-10)
        nlinarith
      · have : Real.exp (-10) * 10 ^ 2 ≤ (1024 : ℝ)⁻¹ * 10 ^ 2 := by nlinarith
        norm_num at this ⊢
        linarith
    unfold pyRound
    rw [hround]
    norm_num

/-- Claim C5 (amended): for every review sequence in which no timestamp is in
the future, the reported `recency_factor` lies in `[0, 1]`; it is `1` in the
no-review case, but (contrary to the original claim) it can also be `1` or `0`
for non-empty inputs because the mean decay is rounded to two decimals and
future-free decay only guarantees the open bound before rounding. -/
theorem C5_recency_factor_range (reviews : List Review) (now : ℤ)
    (sentiment : String → ℝ) (calc_time : String)
    (h : ∀ r ∈ reviews, r.timestamp ≤ now) :
    0 ≤ (calculate_trust_score reviews now sentiment calc_time).recency_factor ∧
    (calculate_trust_score reviews now sentiment calc_time).recency_factor ≤ 1 := by
  by_cases hne : reviews = []
  · subst hne
    simp only [calculate_trust_score, if_pos rfl]
    norm_num
  · simp only [calculate_trust_score, if_neg hne]
    have h0 := avg_decay_pos reviews now hne
    have h1 := avg_decay_le_one reviews now hne h
    constructor
    · have := le_pyRound_of_le (n := 2) (x := avg_decay reviews now) 0 (by push_cast; nlinarith)
      simpa using this
    · have := pyRound_le_of_le (n := 2) (x := avg_decay reviews now) 100 (by push_cast; nlinarith)
      norm_num at this
      exact this

/-- Claim C5 (witness for the amended statement): a concrete single past
review keeps the rounded mean decay inside `[0, 1]`. -/
theorem C5_recency_factor_range_witness :
    (∀ r ∈ ([⟨"a", true, 4, "", -5⟩] : List Review), r.timestamp ≤ (3 : ℤ)) ∧
    0 ≤ (calculate_trust_score [⟨"a", true, 4, "", -5⟩] 3 (fun _ => 0) "t").recency_factor ∧
    (calculate_trust_score [⟨"a", true, 4, "", -5⟩] 3 (fun _ => 0) "t").recency_factor ≤ 1 :=
  ⟨by decide,
   (C5_recency_factor_range [⟨"a", true, 4, "", -5⟩] 3 (fun _ => 0) "t" (by decide)).1,
   (C5_recency_factor_range [⟨"a", true, 4, "", -5⟩] 3 (fun _ => 0) "t" (by decide)).2⟩

lemma abs_sentiment_sum_le (reviews : List Review) (now : ℤ) (sentiment : String → ℝ)
    (hs : ∀ t, |sentiment t| ≤ 1) :
    |sentiment_sum reviews now sentiment| ≤ weight_sum reviews now := by
  induction reviews with
  | nil => simp [sentiment_sum, weight_sum]
  | cons r rest ih =>
    have hw := total_weight_pos now r
    have hhead : |if r.comment = "" then (0 : ℝ)
        else sentiment r.comment * total_weight now r| ≤ total_weight now r := by
      by_cases hc : r.comment = ""
      · rw [if_pos hc]
        simpa using hw.le
      · rw [if_neg hc, abs_mul, abs_of_pos hw]
        have := mul_le_mul_of_nonneg_right (hs r.comment) hw.le
        linarith
    simp only [sentiment_sum, weight_sum, List.map_cons, List.sum_cons] at *
    exact (abs_add _ _).trans (by linarith)

lemma abs_average_sentiment_le_one (reviews : List Review) (now : ℤ)
    (sentiment : String → ℝ) (hs : ∀ t, |sentiment t| ≤ 1) :
    |average_sentiment reviews now sentiment| ≤ 1 := by
  unfold average_sentiment
  by_cases hw : 0 < weight_sum reviews now
  · rw [if_pos hw, abs_div, abs_of_pos hw, div_le_one hw]
    exact abs_sentiment_sum_le reviews now sentiment hs
  · rw [if_neg hw]
    simp

/-- Claim C6: for a non-empty review sequence and a sentiment adapter honoring
its `[-1, 1]` range contract, the sentiment adjustment (both the internal
value and the reported, rounded field) has absolute value at most
`SENTIMENT_WEIGHT = 0.3`, and the adjusted rating is clamped into `[1, 5]`
before being mapped linearly to the score, so sentiment can never push it
outside `[1, 5]`. -/
theorem C6_sentiment_influence_bounded (reviews : List Review) (now : ℤ)
    (sentiment : String → ℝ) (calc_time : String)
    (hne : reviews ≠ []) (hs : ∀ t, |sentiment t| ≤ 1) :
    |sentiment_adjustment reviews now sentiment| ≤ SENTIMENT_WEIGHT ∧
    |(calculate_trust_score reviews now sentiment calc_time).sentiment_adjustment| ≤
      SENTIMENT_WEIGHT ∧
    1 ≤ adjusted_rating reviews now sentiment ∧
    adjusted_rating reviews now sentiment ≤ 5 ∧
    (calculate_trust_score reviews now sentiment calc_time).score =
      pyRound 1 ((adjusted_rating reviews now sentiment - 1) * 25) := by
  have h1 : |sentiment_adjustment reviews now sentiment| ≤ SENTIMENT_WEIGHT := by
    unfold sentiment_adjustment SENTIMENT_WEIGHT
    rw [abs_mul, show |(3 : ℝ) / 10| = 3 / 10 by norm_num]
    have := abs_average_sentiment_le_one reviews now sentiment hs
    nlinarith [abs_nonneg (average_sentiment reviews now sentiment)]
  have habs := abs_le.mp h1
  have hsw : SENTIMENT_WEIGHT = 3 / 10 := rfl
  refine ⟨h1, ?_, (adjusted_rating_bounds reviews now sentiment).1,
    (adjusted_rating_bounds reviews now sentiment).2, ?_⟩
  · simp only [calculate_trust_score, if_neg hne]
    rw [abs_le]
    constructor
    · have := le_pyRound_of_le (n := 2)
        (x := sentiment_adjustment reviews now sentiment) (-30)
        (by push_cast; rw [hsw] at habs; nlinarith [habs.1])
      rw [hsw]
      norm_num at this ⊢
      linarith
    · have := pyRound_le_of_le (n := 2)
        (x := sentiment_adjustment reviews now sentiment) 30
        (by push_cast; rw [hsw] at habs; nlinarith [habs.2])
      rw [hsw]
      norm_num at this ⊢
      linarith
  · simp only [calculate_trust_score, if_neg hne]
    rfl

/-- Claim C6 (witness): a concrete verified five-star review with an
always-maximal sentiment adapter stays within the bounds. -/
theorem C6_sentiment_influence_bounded_witness :
    (([⟨"a", true, 5, "great", 0⟩] : List Review) ≠ []) ∧
    (∀ t : String, |(fun _ : String => (1 : ℝ)) t| ≤ 1) ∧
    |sentiment_adjustment [⟨"a", true, 5, "great", 0⟩] 0 (fun _ => 1)| ≤ SENTIMENT_WEIGHT ∧
    1 ≤ adjusted_rating [⟨"a", true, 5, "great", 0⟩] 0 (fun _ => 1) ∧
    adjusted_rating [⟨"a", true, 5, "great", 0⟩] 0 (fun _ => 1) ≤ 5 := by
  have hne : ([⟨"a", true, 5, "great", 0⟩] : List Review) ≠ [] := by simp
  have hs : ∀ t : String, |(fun _ : String => (1 : ℝ)) t| ≤ 1 := fun t => by norm_num
  have H := C6_sentiment_influence_bounded [⟨"a", true, 5, "great", 0⟩] 0
    (fun _ => 1) "t" hne hs
  exact ⟨hne, hs, H.1, H.2.2.1, H.2.2.2.1⟩

/-- Claim C7: the sentiment adapter returns `0.0` for empty input, for a
missing model, and on any internal model failure (never propagating an error);
and the aggregation's sentiment accumulator is insensitive to the adapter's
behaviour on empty comments: it depends on the adapter only at non-empty
comments, and a review with an empty comment contributes exactly `0`. -/
theorem C7_sentiment_adapter_neutral :
    (∀ analyzer, analyze_sentiment analyzer "" = 0) ∧
    (∀ text, analyze_sentiment none text = 0) ∧
    (∀ (model : String → Except String SentimentOutput) (text e : String),
        model (text.take 512) = Except.error e →
        analyze_sentiment (some model) text = 0) ∧
    (∀ (reviews : List Review) (now : ℤ) (s1 s2 : String → ℝ),
        (∀ t, t ≠ "" → s1 t = s2 t) →
        sentiment_sum reviews now s1 = sentiment_sum reviews now s2) ∧
    (∀ (reviews : List Review) (now : ℤ) (sentiment : String → ℝ) (r : Review),
        r.comment = "" →
        sentiment_sum (r :: reviews) now sentiment = sentiment_sum reviews now sentiment) := by
  refine ⟨?_, ?_, ?_, ?_, ?_⟩
  · intro a
    cases a <;> simp [analyze_sentiment]
  · intro t
    rfl
  · intro model text e hm
    by_cases ht : text = ""
    · simp [analyze_sentiment, ht]
    · simp [analyze_sentiment, ht, hm]
  · intro reviews now s1 s2 hagree
    unfold sentiment_sum
    induction reviews with
    | nil => rfl
    | cons r rest ih =>
      simp only [List.map_cons, List.sum_cons, ih]
      by_cases hc : r.comment = ""
      · simp [hc]
      · simp [hc, hagree _ hc]
  · intro reviews now sentiment r hc
    simp [sentiment_sum, hc]

/-- Claim C7 (witness): concrete adapter failures degrade to `0`, and a
concrete empty-comment review adds nothing to the sentiment accumulator. -/
theorem C7_sentiment_adapter_neutral_witness :
    analyze_sentiment none "bad work" = 0 ∧
    analyze_sentiment (some (fun _ => Except.error "model crash")) "bad work" = 0 ∧
    sentiment_sum [⟨"a", true, 3, "", 5⟩] 7 (fun _ => 1) =
      sentiment_sum [] 7 (fun _ => 1) :=
  ⟨C7_sentiment_adapter_neutral.2.1 "bad work",
   C7_sentiment_adapter_neutral.2.2.1 (fun _ => Except.error "model crash")
     "bad work" "model crash" rfl,
   C7_sentiment_adapter_neutral.2.2.2.2 [] 7 (fun _ => 1) ⟨"a", true, 3, "", 5⟩ rfl⟩

/-- Claim C9: the analysis view works on the raw concatenation of both review
sources with no deduplication (its output always has one entry per input
review of either source), its summary statistics are the plain unweighted
mean rating, mean sentiment and verified percentage over that concatenation,
and the empty input yields the empty result with no error. -/
theorem C9_analysis_view_unweighted (p s : List Review) (now : ℤ)
    (sentiment : String → ℝ) (h : p ++ s ≠ []) :
    (analyze_reviews p s now sentiment).reviews.length = p.length + s.length ∧
    analyze_reviews [] [] now sentiment = { reviews := [], analysis := none } ∧
    (analyze_reviews p s now sentiment).analysis = some
      { review_count := (p ++ s).length
        average_rating := pyRound 2 (spec_unweighted_average_rating (p ++ s))
        average_sentiment := pyRound 2 (spec_unweighted_average_sentiment (p ++ s) sentiment)
        verified_client_percentage := pyRound 1 (spec_verified_percentage (p ++ s)) } := by
  have hcond : ¬(p = [] ∧ s = []) := fun hc => h (by simp [hc.1, hc.2])
  refine ⟨?_, rfl, ?_⟩
  · simp [analyze_reviews, hcond]
  · simp [analyze_reviews, hcond, spec_unweighted_average_rating,
      spec_unweighted_average_sentiment, spec_verified_percentage]

/-- Claim C9 (witness): both sources carrying the very same reviewer's review
gives that reviewer two entries in the analysis (no dedup), and the empty
input gives the empty result. -/
theorem C9_analysis_view_unweighted_witness :
    (([⟨"x", true, 5, "good", 0⟩] : List Review) ++ [⟨"x", true, 5, "good", 0⟩] ≠ []) ∧
    (analyze_reviews [⟨"x", true, 5, "good", 0⟩] [⟨"x", true, 5, "good", 0⟩] 0
      (fun _ => 0)).reviews.length = 2 ∧
    analyze_reviews [] [] 0 (fun _ => (0 : ℝ)) = { reviews := [], analysis := none } := by
  have h : ([⟨"x", true, 5, "good", 0⟩] : List Review) ++ [⟨"x", true, 5, "good", 0⟩] ≠ [] := by
    simp
  have H := C9_analysis_view_unweighted [⟨"x", true, 5, "good", 0⟩]
    [⟨"x", true, 5, "good", 0⟩] 0 (fun _ => 0) h
  exact ⟨h, H.1, H.2.1⟩
